import Mathlib

/-!
Verification of the session orchestrator of `git_asistant.py`.

The Python program drives an interactive git session over several
repositories.  Its core state is three module-level ledgers

  * `TOUCHED_REPOS    : List[Path]`                    (append-only list),
  * `FILES_ADDED_BY_REPO : Dict[str, List[str]]`       (repo -> staged files),
  * `BRANCH_CHANGED   : Dict[str, Tuple[str, str]]`    (repo -> (old, new)),

mutated by `add_and_commit` and `ask_branch_flow`, read by
`revert_changes` on cancellation.

Modelling conventions (the external-collaborator boundary of the spec):

  * a git invocation is identified by its repository (string path) and its
    argument list; the backend is an environment `GitEnv` giving each
    invocation's return code.  Calls issued are collected in a trace.
  * `run_git(..., check=True)` raising `RuntimeError` on a non-zero return
    code is modelled by an `err` flag in the outcome; `check=False` calls
    never set it.
  * interactive prompt answers (commit message, branch names, menu picks,
    confirmations) are parameters of the corresponding functions.  Python's
    `.strip()` on prompt results is modelled by `pyStrip`.
  * the current branch of a repository (read by `rev-parse` / `branch` and
    written by `checkout`) is abstracted as a small repository state
    `RepoSt`, the boundary granted to the already-correct VCS backend.

Dictionaries are embedded as association lists with unique keys:
`setKey` is Python's `d[k] = v` (update in place, insert at the end),
`lookup?` is `d[k]` / `k in d`, and `appendVals` is
`d.setdefault(k, []).extend(vs)`.
-/

/-- Python `k in d` / `d[k]`: first (unique) binding of `k`. -/
def lookup? {α : Type} : List (String × α) → String → Option α
  | [], _ => none
  | (k, v) :: rest, key => if k = key then some v else lookup? rest key

/-- Python `d[k] = v`: replace the binding in place, or append a new one. -/
def setKey {α : Type} : List (String × α) → String → α → List (String × α)
  | [], key, v => [(key, v)]
  | (k, w) :: rest, key, v =>
      if k = key then (key, v) :: rest else (k, w) :: setKey rest key v

/-- Python `d.setdefault(k, []).extend(vs)` (also `.append(x)` as `[x]`). -/
def appendVals (d : List (String × List String)) (key : String) (vs : List String) :
    List (String × List String) :=
  match lookup? d key with
  | some old => setKey d key (old ++ vs)
  | none => d ++ [(key, vs)]

/-- The three module-level ledgers of `git_asistant.py`
(`TOUCHED_REPOS`, `FILES_ADDED_BY_REPO`, `BRANCH_CHANGED`). -/
structure Session where
  touched : List String
  filesAdded : List (String × List String)
  branchChanged : List (String × String × String)
deriving DecidableEq

/-- The empty session state at program start. -/
def emptySession : Session := ⟨[], [], []⟩

/-- The VCS backend: return code of `git <args>` run inside `repo`. -/
structure GitEnv where
  rc : String → List String → Nat

/-- Observable events of the staging/commit/dispatch flow: a git call,
a console message, or a review-tool (`gh`) call. -/
inductive Ev where
  | git (repo : String) (args : List String)
  | say (msg : String)
  | gh (args : List String)
deriving DecidableEq

/-- Outcome of `add_and_commit`: final ledgers, event trace, and whether a
`check=True` git call raised `RuntimeError`. -/
structure AOut where
  sess : Session
  evs : List Ev
  err : Bool
deriving DecidableEq

/-- Python `s.strip()`: drop leading and trailing whitespace
(character-list model, so that it evaluates on concrete inputs). -/
def pyStrip (s : String) : String :=
  ⟨((s.data.dropWhile Char.isWhitespace).reverse.dropWhile Char.isWhitespace).reverse⟩

/-- The commit half of `add_and_commit` (source lines 389-396):
prompt for a message (`msg`, stripped), cancel on empty, otherwise run
`git commit -m` unchecked and report a non-zero result as informational. -/
def commitPart (env : GitEnv) (repo : String) (msg : String) (s : Session)
    (evs : List Ev) : AOut :=
  let m := pyStrip msg
  if m = "" then
    ⟨s, evs ++ [Ev.say "Mensaje vacío. Cancelando commit."], false⟩
  else
    let e := Ev.git repo ["commit", "-m", m]
    if env.rc repo ["commit", "-m", m] ≠ 0 then
      ⟨s, evs ++ [e, Ev.say "Puede que no hubiera cambios que commitear."], false⟩
    else
      ⟨s, evs ++ [e], false⟩

/-- `add_and_commit(repo, add_all, files)` (source lines 365-396).
`fexists repo f` models `(repo / f).exists()`; `msg` is the commit-message
prompt answer.  The repo is appended to `TOUCHED_REPOS` first; the
staged-file record is updated only after a successful `git add`
(`check=True`: a non-zero return code raises, setting `err`). -/
def add_and_commit (env : GitEnv) (fexists : String → String → Bool)
    (repo : String) (add_all : Bool) (files : Option (List String))
    (msg : String) (s0 : Session) : AOut :=
  let s := { s0 with touched := s0.touched ++ [repo] }
  if add_all then
    let e := Ev.git repo ["add", "."]
    if env.rc repo ["add", "."] ≠ 0 then
      ⟨s, [e], true⟩
    else
      commitPart env repo msg
        { s with filesAdded := appendVals s.filesAdded repo ["."] } [e]
  else
    match files with
    | none => ⟨s, [Ev.say "No se proporcionaron archivos. Nada que añadir."], false⟩
    | some fs =>
      if fs = [] then
        ⟨s, [Ev.say "No se proporcionaron archivos. Nada que añadir."], false⟩
      else
        let ok := fs.filter (fun f => fexists repo f)
        let missing := (fs.filter (fun f => ¬ fexists repo f)).map
          (fun f => Ev.say ("No existe: " ++ f))
        if ok = [] then
          commitPart env repo msg s
            (missing ++ [Ev.say "No hay archivos válidos para añadir."])
        else
          let e := Ev.git repo (["add"] ++ ok)
          if env.rc repo (["add"] ++ ok) ≠ 0 then
            ⟨s, missing ++ [e], true⟩
          else
            commitPart env repo msg
              { s with filesAdded := appendVals s.filesAdded repo ok }
              (missing ++ [e])

/-- Branch state of one repository at the VCS-backend boundary:
the current branch (`rev-parse --abbrev-ref HEAD`) and the local branches
(`branch --format %(refname:short)`); `checkout` moves `curBranch`,
`checkout -b` also creates the branch. -/
structure RepoSt where
  curBranch : String
  branches : List String
deriving DecidableEq

/-- Prompt answers consumed by `ask_branch_flow`: the existing/new menu
choice, the selected existing branch, and the new-branch name prompt. -/
structure BranchInputs where
  mode : String
  choice : String
  newName : String
deriving DecidableEq

/-- Outcome of `ask_branch_flow`: repository branch state, ledgers, the
returned branch name, and `some 1` when it called `sys.exit(1)`. -/
structure BOut where
  rs : RepoSt
  sess : Session
  ret : Option String
  exit : Option Nat
deriving DecidableEq

/-- `ask_branch_flow(repo)` (source lines 326-362).  "Use existing" with a
non-empty branch list checks out the choice when it differs from the
current branch and assigns `BRANCH_CHANGED[repo] = (current, choice)`;
otherwise (mode "new", or fallback when no local branches exist) a
non-empty stripped name is required (`sys.exit(1)` otherwise), recorded
the same way, and created with `checkout -b`. -/
def askBranchFlow (repo : String) (inp : BranchInputs) (rs : RepoSt)
    (s : Session) : BOut :=
  let current := rs.curBranch
  if inp.mode = "existing" ∧ rs.branches ≠ [] then
    if inp.choice ≠ current then
      ⟨{ rs with curBranch := inp.choice },
       { s with branchChanged := setKey s.branchChanged repo (current, inp.choice) },
       some inp.choice, none⟩
    else
      ⟨rs, s, some inp.choice, none⟩
  else
    let n := pyStrip inp.newName
    if n = "" then
      ⟨rs, s, none, some 1⟩
    else
      ⟨{ rs with curBranch := n, branches := rs.branches ++ [n] },
       { s with branchChanged := setKey s.branchChanged repo (current, n) },
       some n, none⟩

/-- Python `s.lower()` (character-list model). -/
def pyLower (s : String) : String := ⟨s.data.map Char.toLower⟩

/-- Python `int(s)` for the browser's index prompt, as an optional parse:
digits only (a non-numeric or negative answer is rejected by the browser
loop either way, so both land in the re-prompt branch). -/
def pyToNat? (s : String) : Option Nat :=
  if s.data ≠ [] ∧ s.data.all (fun c => c.isDigit) then
    some (s.data.foldl (fun n c => n * 10 + (c.toNat - 48)) 0)
  else none

/-- Lexicographic comparison of character lists by code point
(Python string `<=`). -/
def charListLe : List Char → List Char → Bool
  | [], _ => true
  | _ :: _, [] => false
  | a :: as, b :: bs => if a = b then charListLe as bs else decide (a < b)

/-- Python string `<=` (code-point lexicographic). -/
def pyStrLe (s t : String) : Bool := charListLe s.data t.data

/-- Python `s.startswith(p)`, as a character-list prefix test. -/
def pyStartsWith (s p : String) : Bool :=
  decide (s.data.take p.data.length = p.data)

/-- The review-tool backend (`gh`).  `versionRc` is the result of
`subprocess.run(["gh", "--version"])`: `none` when the gh executable is
absent, in which case `subprocess.run` raises `FileNotFoundError` instead
of returning, and `some rc` when the probe ran and exited with code `rc`.
`prCreateRc` is the return code of `gh pr create` (only reachable when the
probe returned 0, so the executable exists there). -/
structure GhEnv where
  versionRc : Option Nat
  prCreateRc : Nat

/-- Prompt answers consumed by `do_action`: PR title, body, base branch,
and the branch-flow answers. -/
structure DInputs where
  prTitle : String
  prBody : String
  prBase : String
  branch : BranchInputs
deriving DecidableEq

/-- Outcome of `do_action`: repository branch state, ledgers, event trace,
a process exit request propagated from the branch flow, and whether an
uncaught Python exception escaped the dispatcher (`do_action` has no
handler, and its callers catch only `KeyboardInterrupt`). -/
structure DOut where
  rs : RepoSt
  sess : Session
  evs : List Ev
  exit : Option Nat
  err : Bool
deriving DecidableEq

/-- `do_action(repo, action)` (source lines 454-492): the string-matched
action dispatcher.  It first reads the current branch (`rev-parse`); all
its own git calls are unchecked.  The review-request action probes
`gh --version`: a probe that ran and reported non-zero degrades to printed
guidance, but a missing gh executable makes `subprocess.run` itself raise
`FileNotFoundError` (source line 471), which nothing catches - that run
ends with an uncaught exception (`err`). -/
def doAction (env : GitEnv) (gh : GhEnv) (inp : DInputs) (repo : String)
    (action : String) (rs : RepoSt) (s : Session) : DOut :=
  let currentBranch := rs.curBranch
  let e0 := Ev.git repo ["rev-parse", "--abbrev-ref", "HEAD"]
  if action = "Pull" then
    ⟨rs, s, [e0, Ev.git repo ["pull", "--ff-only"]], none, false⟩
  else if action = "Fetch" then
    ⟨rs, s, [e0, Ev.git repo ["fetch", "--all", "--prune"]], none, false⟩
  else if action = "Status" then
    ⟨rs, s, [e0, Ev.git repo ["status"]], none, false⟩
  else if action = "Log (últimos 10)" then
    ⟨rs, s, [e0, Ev.git repo ["log", "--oneline", "-10", "--graph", "--decorate"]], none, false⟩
  else if pyStartsWith action "Push directo" then
    ⟨rs, s, [e0, Ev.git repo ["push", "origin", "HEAD"]], none, false⟩
  else if pyStartsWith action "Push y establecer upstream" then
    ⟨rs, s, [e0, Ev.git repo ["push", "-u", "origin", currentBranch]], none, false⟩
  else if pyStartsWith action "Crear Pull Request" then
    match gh.versionRc with
    | none =>
      ⟨rs, s, [e0], none, true⟩
    | some rc =>
      if rc ≠ 0 then
        ⟨rs, s, [e0, Ev.say "No tienes la GitHub CLI gh instalada o configurada.",
                 Ev.say "Instala desde https://cli.github.com/ y ejecuta gh auth login."],
         none, false⟩
      else
        let prEv := Ev.gh ["pr", "create", "--base", inp.prBase, "--head", currentBranch,
                           "--title", inp.prTitle, "--body", inp.prBody]
        if gh.prCreateRc ≠ 0 then
          ⟨rs, s, [e0, prEv, Ev.say "Fallo creando el PR."], none, false⟩
        else
          ⟨rs, s, [e0, prEv, Ev.say "Pull Request creado correctamente."], none, false⟩
  else if action = "Cambiar/crear rama" then
    let b := askBranchFlow repo inp.branch rs s
    ⟨b.rs, b.sess, [e0], b.exit, false⟩
  else
    ⟨rs, s, [e0], none, false⟩

/-- Observable events of `revert_changes`: the per-repository "Revirtiendo
cambios" banner and the compensating git calls. -/
inductive REv where
  | banner (repo : String)
  | git (repo : String) (args : List String)
deriving DecidableEq

/-- The compensating git commands for one repository (source lines
500-510): unstage, hard reset, clean, and - when a branch change was
recorded - checkout of the recorded old branch. -/
def repoRevertSteps (bc : List (String × String × String)) (repo : String) :
    List (List String) :=
  [["restore", "--staged", "."], ["reset", "--hard"], ["clean", "-fd"]] ++
  (match lookup? bc repo with
   | some ob => [["checkout", ob.1]]
   | none => [])

/-- Run one repository's compensating steps under the `try` of
`revert_changes`: `raises repo args` says that this git invocation raised
an exception, which skips the repository's remaining steps. -/
def runRevertSteps (raises : String → List String → Bool) (repo : String) :
    List (List String) → List REv
  | [] => []
  | a :: rest =>
      REv.git repo a :: (if raises repo a then [] else runRevertSteps raises repo rest)

/-- `revert_changes()` (source lines 496-512): iterate over
`TOUCHED_REPOS` in order; each repository's banner and steps run inside a
`try/except: pass`, so a failure is swallowed and the next repository is
still processed. -/
def revertChanges (bc : List (String × String × String))
    (raises : String → List String → Bool) : List String → List REv
  | [] => []
  | repo :: rest =>
      (REv.banner repo :: runRevertSteps raises repo (repoRevertSteps bc repo)) ++
      revertChanges bc raises rest

/-- `handle_sigint` (source lines 515-520): run `revert_changes`, then
`sys.exit(130)`. -/
def handleSigint (touched : List String) (bc : List (String × String × String))
    (raises : String → List String → Bool) : List REv × Nat :=
  (revertChanges bc raises touched, 130)

/-- Extract the repository of a banner event. -/
def bannerName : REv → Option String
  | REv.banner r => some r
  | REv.git _ _ => none

/-- A directory entry as seen by `iterdir()`: a subdirectory or a file. -/
inductive FEntry where
  | dir (name : String)
  | file (name : String)
deriving DecidableEq

/-- Name of a directory entry. -/
def entryName : FEntry → String
  | FEntry.dir n => n
  | FEntry.file n => n

/-- Sort rank of `p.is_file()` used as the primary sort key. -/
def entryRank : FEntry → Nat
  | FEntry.dir _ => 0
  | FEntry.file _ => 1

/-- The sort order `key=lambda p: (p.is_file(), p.name.lower())` of the
directory listing (source line 178). -/
def entryLe (a b : FEntry) : Prop :=
  entryRank a < entryRank b ∨
  (entryRank a = entryRank b ∧
    pyStrLe (pyLower (entryName a)) (pyLower (entryName b)) = true)

instance : DecidableRel entryLe := fun a b => by
  unfold entryLe
  infer_instance

/-- The filesystem at the backend boundary: the entries `iterdir()` yields
for the directory at a given absolute path (a list of name components).
A path with no directory, or an unreadable one (`PermissionError`), simply
yields `[]`, matching the source's fallback. -/
def FS : Type := List String → List FEntry

/-- A legal `iterdir()` entry name: never empty, `"."` or `".."`. -/
def goodName (n : String) : Prop := n ≠ "" ∧ n ≠ "." ∧ n ≠ ".."

/-- Well-formedness of the filesystem boundary: `iterdir()` never yields
`"."`/`".."`/empty entry names. -/
def FSok (fs : FS) : Prop := ∀ p e, e ∈ fs p → goodName (entryName e)

/-- `sorted(current.iterdir(), key=...)` (source line 178). -/
def sortedEntries (fs : FS) (cur : List String) : List FEntry :=
  List.insertionSort entryLe (fs cur)

/-- The subdirectory names of the listing, in display order. -/
def dirNames (fs : FS) (cur : List String) : List String :=
  (sortedEntries fs cur).filterMap (fun e =>
    match e with
    | FEntry.dir n => some n
    | FEntry.file _ => none)

/-- The file names of the listing, in display order. -/
def fileNames (fs : FS) (cur : List String) : List String :=
  (sortedEntries fs cur).filterMap (fun e =>
    match e with
    | FEntry.dir _ => none
    | FEntry.file n => some n)

/-- One row of the browser's `index_map`: the `..` control (only when not
at the root), the finish control, a subdirectory, or a file. -/
inductive Item where
  | up
  | finishCtl
  | dirItem (name : String)
  | fileItem (name : String)
deriving DecidableEq

/-- The browser's 1-based `index_map` (source lines 171-201): controls
first (`..` only when `current != repo_path`, then finish), then the
directories, then the files of the sorted listing. -/
def items (fs : FS) (root cur : List String) : List Item :=
  (if cur ≠ root then [Item.up] else []) ++ [Item.finishCtl] ++
  (dirNames fs cur).map Item.dirItem ++ (fileNames fs cur).map Item.fileItem

/-- Browser state: the cursor directory (absolute path components) and the
selection, absolute paths in order of addition
(`current` and `selected` in `browse_and_select_files`). -/
structure BState where
  cur : List String
  selected : List (List String)
deriving DecidableEq

/-- One prompt round of the browser: the typed answer and the reply given
to whichever confirmation (at most one) that answer triggers. -/
structure BInput where
  choice : String
  confirm : Bool
deriving DecidableEq

/-- The file branch of the index dispatch (source lines 261-271): a file
already in the selection is left alone (only a message is printed);
otherwise it is appended. -/
def selectFile (st : BState) (fpath : List String) : BState :=
  if fpath ∈ st.selected then st
  else { st with selected := st.selected ++ [fpath] }

/-- One iteration of the `browse_and_select_files` loop (source lines
164-271) on one prompt answer.  `.inl` continues browsing, `.inr` is the
function's return value (paths relative to the root).  Notes kept from the
source: empty input, `l`, unparsable input and out-of-range indices all
just re-prompt; `b` pops the last selection entry; the finish control asks
for confirmation (with an extra confirmation when the selection is empty);
`int(choice)` is modelled by `String.toNat?` (negative numbers land
outside the 1-based index map either way).  The source's `"¡"` easter-egg
calls an undefined `ai_panel` and cannot reach a finish, so it is modelled
as a re-prompt. -/
def bstep (fs : FS) (root : List String) (st : BState) (inp : BInput) :
    BState ⊕ List (List String) :=
  if inp.choice = "" then Sum.inl st
  else if pyLower inp.choice = "l" then Sum.inl st
  else if pyLower inp.choice = "b" then
    Sum.inl { st with selected := st.selected.dropLast }
  else
    match pyToNat? inp.choice with
    | none => Sum.inl st
    | some n =>
      if n = 0 then Sum.inl st
      else
        match (items fs root st.cur).get? (n - 1) with
        | none => Sum.inl st
        | some Item.up => Sum.inl { st with cur := st.cur.dropLast }
        | some Item.finishCtl =>
          if st.selected = [] then
            if inp.confirm then Sum.inr [] else Sum.inl st
          else if inp.confirm then
            Sum.inr (st.selected.map (fun p => p.drop root.length))
          else Sum.inl st
        | some (Item.dirItem d) => Sum.inl { st with cur := st.cur ++ [d] }
        | some (Item.fileItem f) => Sum.inl (selectFile st (st.cur ++ [f]))

/-- Run the browser loop on a list of prompt answers: stop at the first
finishing step (`.inr`), otherwise keep browsing. -/
def browseRun (fs : FS) (root : List String) (st : BState) :
    List BInput → BState ⊕ List (List String)
  | [] => Sum.inl st
  | inp :: rest =>
    match bstep fs root st inp with
    | Sum.inl st2 => browseRun fs root st2 rest
    | Sum.inr r => Sum.inr r

/-- The loop invariant of the browser: the cursor is the root or a
descendant with legal components, every selected path is a strict
descendant of the root with legal components, and the selection has no
duplicates. -/
def InvSt (root : List String) (st : BState) : Prop :=
  (∃ t, st.cur = root ++ t ∧ ∀ c ∈ t, goodName c) ∧
  (∀ p ∈ st.selected, ∃ t, t ≠ [] ∧ p = root ++ t ∧ ∀ c ∈ t, goodName c) ∧
  st.selected.Nodup

/-- Concrete two-level filesystem of spec Scenario C: the root holds
`a.txt` and `sub/`; `sub/` holds `b.txt`. -/
def exFs : FS := fun p =>
  if p = [] then [FEntry.dir "sub", FEntry.file "a.txt"]
  else if p = ["sub"] then [FEntry.file "b.txt"]
  else []

/-- A backend where every git call succeeds. -/
def gitOk : GitEnv := ⟨fun _ _ => 0⟩

/-- A raise oracle under which no rollback git call raises. -/
def noRaise : String → List String → Bool := fun _ _ => false

/-- A backend where `git add .` fails (non-zero) and everything else
succeeds. -/
def envAddFails : GitEnv := ⟨fun _ args => if args = ["add", "."] then 1 else 0⟩

/-- A backend where `git commit` fails (non-zero) and everything else
succeeds. -/
def envCommitFails : GitEnv := ⟨fun _ args => if args.head? = some "commit" then 1 else 0⟩

theorem commitPart_sess (env : GitEnv) (repo msg : String) (s : Session)
    (evs : List Ev) : (commitPart env repo msg s evs).sess = s := by
  unfold commitPart
  dsimp only
  split
  · rfl
  · split <;> rfl

theorem commitPart_err (env : GitEnv) (repo msg : String) (s : Session)
    (evs : List Ev) : (commitPart env repo msg s evs).err = false := by
  unfold commitPart
  dsimp only
  split
  · rfl
  · split <;> rfl

/-- C10: dispatching Pull, Fetch, Status or Log leaves the session ledgers
(touched, staged-files, branch-changes) unchanged, for every starting
state. -/
theorem claim10_readonly_actions (env : GitEnv) (gh : GhEnv) (inp : DInputs)
    (repo : String) (rs : RepoSt) (s : Session) :
    (doAction env gh inp repo "Pull" rs s).sess = s ∧
    (doAction env gh inp repo "Fetch" rs s).sess = s ∧
    (doAction env gh inp repo "Status" rs s).sess = s ∧
    (doAction env gh inp repo "Log (últimos 10)" rs s).sess = s :=
  ⟨rfl, rfl, rfl, rfl⟩

/-- C4: the claim states the spec intent, but the code violates it.  When
the gh executable is truly absent, `subprocess.run(["gh", "--version"])`
at source line 471 raises `FileNotFoundError`, which neither `do_action`
nor any caller handles (main is wrapped only in `except KeyboardInterrupt`),
so the review-request action ends in an uncaught exception and no guidance
is printed - absence of the review tool IS fatal.  The printed-guidance,
return-without-error behaviour the claim describes occurs only in the
nearby case where the probe ran and merely reported a non-zero exit code.
Both runs of the code are evaluated here at the concrete failing input. -/
theorem claim4_gh_absent_is_fatal :
    (doAction gitOk ⟨none, 0⟩ ⟨"t", "b", "main", ⟨"existing", "dev", "n"⟩⟩ "r"
      "Crear Pull Request" ⟨"main", ["main"]⟩ emptySession).err = true ∧
    (doAction gitOk ⟨none, 0⟩ ⟨"t", "b", "main", ⟨"existing", "dev", "n"⟩⟩ "r"
      "Crear Pull Request" ⟨"main", ["main"]⟩ emptySession).evs =
      [Ev.git "r" ["rev-parse", "--abbrev-ref", "HEAD"]] ∧
    (doAction gitOk ⟨some 1, 0⟩ ⟨"t", "b", "main", ⟨"existing", "dev", "n"⟩⟩ "r"
      "Crear Pull Request" ⟨"main", ["main"]⟩ emptySession).err = false ∧
    (doAction gitOk ⟨some 1, 0⟩ ⟨"t", "b", "main", ⟨"existing", "dev", "n"⟩⟩ "r"
      "Crear Pull Request" ⟨"main", ["main"]⟩ emptySession).exit = none ∧
    (doAction gitOk ⟨some 1, 0⟩ ⟨"t", "b", "main", ⟨"existing", "dev", "n"⟩⟩ "r"
      "Crear Pull Request" ⟨"main", ["main"]⟩ emptySession).sess = emptySession ∧
    Ev.say "No tienes la GitHub CLI gh instalada o configurada."
      ∈ (doAction gitOk ⟨some 1, 0⟩ ⟨"t", "b", "main", ⟨"existing", "dev", "n"⟩⟩ "r"
          "Crear Pull Request" ⟨"main", ["main"]⟩ emptySession).evs := by
  refine ⟨rfl, rfl, rfl, rfl, rfl, by decide⟩

theorem commitPart_evs_empty (env : GitEnv) (repo msg : String) (s : Session)
    (evs : List Ev) (h : pyStrip msg = "") :
    (commitPart env repo msg s evs).evs =
      evs ++ [Ev.say "Mensaje vacío. Cancelando commit."] := by
  unfold commitPart
  dsimp only
  rw [if_pos h]

theorem commitPart_evs_info (env : GitEnv) (repo msg : String) (s : Session)
    (evs : List Ev) (h : pyStrip msg ≠ "")
    (h2 : env.rc repo ["commit", "-m", pyStrip msg] ≠ 0) :
    (commitPart env repo msg s evs).evs =
      evs ++ [Ev.git repo ["commit", "-m", pyStrip msg],
              Ev.say "Puede que no hubiera cambios que commitear."] := by
  unfold commitPart
  dsimp only
  rw [if_neg h, if_pos h2]

theorem no_git_in_say_map (r : String) (args : List String) (g : String → String)
    (l : List String) : Ev.git r args ∉ l.map (fun f => Ev.say (g f)) := by
  intro h
  rcases List.mem_map.1 h with ⟨f, _, hf⟩
  exact Ev.noConfusion hf

/-- C8: an empty (stripped) commit message cancels the commit step and
control returns normally - no `RuntimeError`, no exit, only the
cancellation message is printed; and when the commit runs but the backend
reports a non-zero result (e.g. nothing staged), that is reported as an
informational message, not an error; hence once staging succeeded,
`add_and_commit` never ends in an error, whatever the message and the
commit result. -/
theorem claim8_commit_cancel_and_tolerance (env : GitEnv)
    (fexists : String → String → Bool) (repo msg : String) (s : Session)
    (evs : List Ev) :
    (pyStrip msg = "" →
      (commitPart env repo msg s evs).err = false ∧
      (commitPart env repo msg s evs).evs =
        evs ++ [Ev.say "Mensaje vacío. Cancelando commit."]) ∧
    (pyStrip msg ≠ "" → env.rc repo ["commit", "-m", pyStrip msg] ≠ 0 →
      (commitPart env repo msg s evs).err = false ∧
      (commitPart env repo msg s evs).evs =
        evs ++ [Ev.git repo ["commit", "-m", pyStrip msg],
                Ev.say "Puede que no hubiera cambios que commitear."]) ∧
    (env.rc repo ["add", "."] = 0 →
      (add_and_commit env fexists repo true none msg s).err = false) := by
  refine ⟨fun h => ⟨commitPart_err _ _ _ _ _, commitPart_evs_empty _ _ _ _ _ h⟩,
          fun h h2 => ⟨commitPart_err _ _ _ _ _, commitPart_evs_info _ _ _ _ _ h h2⟩,
          fun h => ?_⟩
  unfold add_and_commit
  dsimp only
  rw [if_pos rfl, if_neg (by simp [h])]
  exact commitPart_err _ _ _ _ _

/-- C8 witness. -/
theorem claim8_commit_cancel_and_tolerance_witness :
    (commitPart gitOk "r" "" emptySession []).err = false ∧
    (commitPart envCommitFails "r" "m" emptySession []).err = false ∧
    (add_and_commit gitOk (fun _ _ => true) "r" true none "m" emptySession).err = false := by
  refine ⟨((claim8_commit_cancel_and_tolerance gitOk (fun _ _ => true) "r" "" emptySession []).1 rfl).1,
          ?_,
          (claim8_commit_cancel_and_tolerance gitOk (fun _ _ => true) "r" "m"
            emptySession []).2.2 rfl⟩
  exact (((claim8_commit_cancel_and_tolerance envCommitFails (fun _ _ => true) "r" "m"
    emptySession []).2.1) (by decide) (by decide)).1

theorem add_and_commit_sess_msg_indep (env : GitEnv)
    (fexists : String → String → Bool) (repo : String) (add_all : Bool)
    (files : Option (List String)) (msg1 msg2 : String) (s : Session) :
    (add_and_commit env fexists repo add_all files msg1 s).sess =
      (add_and_commit env fexists repo add_all files msg2 s).sess := by
  unfold add_and_commit
  dsimp only
  split
  · split
    · rfl
    · rw [commitPart_sess, commitPart_sess]
  · split
    · rfl
    · split
      · rfl
      · split
        · rw [commitPart_sess, commitPart_sess]
        · split
          · rfl
          · rw [commitPart_sess, commitPart_sess]

theorem add_and_commit_git_evs_add_only (env : GitEnv)
    (fexists : String → String → Bool) (repo : String) (add_all : Bool)
    (files : Option (List String)) (msg : String) (s : Session)
    (hm : pyStrip msg = "") (r : String) (args : List String)
    (hmem : Ev.git r args ∈ (add_and_commit env fexists repo add_all files msg s).evs) :
    args.head? = some "add" := by
  unfold add_and_commit at hmem
  dsimp only at hmem
  split at hmem
  · split at hmem
    · dsimp only at hmem
      simp only [List.mem_singleton] at hmem
      cases hmem
      rfl
    · rw [commitPart_evs_empty _ _ _ _ _ hm] at hmem
      simp only [List.mem_append, List.mem_singleton] at hmem
      rcases hmem with h1 | h1
      · cases h1
        rfl
      · exact Ev.noConfusion h1
  · split at hmem
    · dsimp only at hmem
      simp only [List.mem_singleton] at hmem
      exact Ev.noConfusion hmem
    · split at hmem
      · dsimp only at hmem
        simp only [List.mem_singleton] at hmem
        exact Ev.noConfusion hmem
      · split at hmem
        · rw [commitPart_evs_empty _ _ _ _ _ hm] at hmem
          simp only [List.mem_append, List.mem_singleton] at hmem
          rcases hmem with (h1 | h1) | h1
          · exact absurd h1 (no_git_in_say_map _ _ _ _)
          · exact Ev.noConfusion h1
          · exact Ev.noConfusion h1
        · split at hmem
          · dsimp only at hmem
            simp only [List.mem_append, List.mem_singleton] at hmem
            rcases hmem with h1 | h1
            · exact absurd h1 (no_git_in_say_map _ _ _ _)
            · cases h1
              rfl
          · rw [commitPart_evs_empty _ _ _ _ _ hm] at hmem
            simp only [List.mem_append, List.mem_singleton] at hmem
            rcases hmem with (h1 | h1) | h1
            · exact absurd h1 (no_git_in_say_map _ _ _ _)
            · cases h1
              rfl
            · exact Ev.noConfusion h1

/-- C9: cancelling the commit step with an empty message undoes nothing:
the session ledgers produced by `add_and_commit` do not depend on the
commit message at all (in particular the touched mark and staged-file
record made by the attempt survive the cancellation), and on the
empty-message run every git command issued is an `add` - nothing unstages
or otherwise reverts the staging already performed. -/
theorem claim9_commit_cancel_frame (env : GitEnv)
    (fexists : String → String → Bool) (repo : String) (add_all : Bool)
    (files : Option (List String)) (msg : String) (s : Session) :
    (∀ msg2, (add_and_commit env fexists repo add_all files msg s).sess =
      (add_and_commit env fexists repo add_all files msg2 s).sess) ∧
    (pyStrip msg = "" → ∀ r args,
      Ev.git r args ∈ (add_and_commit env fexists repo add_all files msg s).evs →
      args.head? = some "add") :=
  ⟨fun msg2 => add_and_commit_sess_msg_indep env fexists repo add_all files msg msg2 s,
   fun hm r args hmem =>
     add_and_commit_git_evs_add_only env fexists repo add_all files msg s hm r args hmem⟩

/-- C9 witness. -/
theorem claim9_commit_cancel_frame_witness :
    (add_and_commit gitOk (fun _ _ => true) "r" true none "" emptySession).sess =
      (add_and_commit gitOk (fun _ _ => true) "r" true none "xyz" emptySession).sess ∧
    (["add", "."] : List String).head? = some "add" := by
  have h := claim9_commit_cancel_frame gitOk (fun _ _ => true) "r" true none "" emptySession
  exact ⟨h.1 "xyz", h.2 rfl "r" ["add", "."] (by decide)⟩

/-- C7 as stated is false: with a backend where `git add .` fails, the
staging attempt marks the repository touched but appends nothing to the
staged-file record (and the attempt raises), so the record append is not
made at initiation and does depend on the backend call's success. -/
theorem claim7_counterexample :
    (add_and_commit envAddFails (fun _ _ => true) "r" true none "m"
      emptySession).sess.touched = ["r"] ∧
    (add_and_commit envAddFails (fun _ _ => true) "r" true none "m"
      emptySession).sess.filesAdded = [] ∧
    (add_and_commit envAddFails (fun _ _ => true) "r" true none "m"
      emptySession).err = true := by
  refine ⟨rfl, rfl, rfl⟩

/-- C7 amended: every staging attempt marks the repository as touched the
moment it is initiated - the touched ledger gains exactly the attempted
repository, whatever the backend later reports, so it only grows; the
staged-file record, by contrast, is appended only after the stage backend
call returns success ( and not at all when no file list is given). -/
theorem claim7_touched_and_record (env : GitEnv)
    (fexists : String → String → Bool) (repo : String) (add_all : Bool)
    (files : Option (List String)) (msg : String) (s : Session) :
    (add_and_commit env fexists repo add_all files msg s).sess.touched =
      s.touched ++ [repo] ∧
    (add_and_commit env fexists repo true none msg s).sess.filesAdded =
      (if env.rc repo ["add", "."] = 0 then appendVals s.filesAdded repo ["."]
       else s.filesAdded) ∧
    (add_and_commit env fexists repo false none msg s).sess.filesAdded =
      s.filesAdded := by
  refine ⟨?_, ?_, rfl⟩
  · unfold add_and_commit
    dsimp only
    split
    · split
      · rfl
      · rw [commitPart_sess]
    · split
      · rfl
      · split
        · rfl
        · split
          · rw [commitPart_sess]
          · split
            · rfl
            · rw [commitPart_sess]
  · unfold add_and_commit
    dsimp only
    by_cases h : env.rc repo ["add", "."] = 0
    · rw [if_pos rfl, if_neg (by simp [h]), if_pos h, commitPart_sess]
    · rw [if_pos rfl, if_pos h, if_neg h]

/-- C1 as stated is false: switching `main → dev → feature` in one session
overwrites the whole record, so the stored old branch is `dev`, not
`main`, and rollback consequently checks out `dev`. -/
theorem claim1_counterexample :
    lookup? ((askBranchFlow "r" ⟨"existing", "feature", ""⟩
        (askBranchFlow "r" ⟨"existing", "dev", ""⟩ ⟨"main", ["main", "dev", "feature"]⟩
          emptySession).rs
        (askBranchFlow "r" ⟨"existing", "dev", ""⟩ ⟨"main", ["main", "dev", "feature"]⟩
          emptySession).sess).sess.branchChanged) "r" = some ("dev", "feature") ∧
    revertChanges (askBranchFlow "r" ⟨"existing", "feature", ""⟩
        (askBranchFlow "r" ⟨"existing", "dev", ""⟩ ⟨"main", ["main", "dev", "feature"]⟩
          emptySession).rs
        (askBranchFlow "r" ⟨"existing", "dev", ""⟩ ⟨"main", ["main", "dev", "feature"]⟩
          emptySession).sess).sess.branchChanged noRaise ["r"] =
      [REv.banner "r", REv.git "r" ["restore", "--staged", "."],
       REv.git "r" ["reset", "--hard"], REv.git "r" ["clean", "-fd"],
       REv.git "r" ["checkout", "dev"]] ∧
    ("dev" : String) ≠ "main" := by
  refine ⟨by decide, by decide, by decide⟩

/-- C1 amended: each effective branch change overwrites the whole record
with (branch current immediately before this change, new branch); the
"old" field therefore holds the branch the repository was on just before
the most recent change of the session, and rollback checks out that
branch, not the one the session first found. -/
theorem claim1_branch_record_overwrite (repo : String) (inp : BranchInputs)
    (rs : RepoSt) (s : Session) (hm : inp.mode = "existing")
    (hb : rs.branches ≠ []) (hc : inp.choice ≠ rs.curBranch) :
    lookup? (askBranchFlow repo inp rs s).sess.branchChanged repo =
      some (rs.curBranch, inp.choice) ∧
    (askBranchFlow repo inp rs s).rs.curBranch = inp.choice := by
  unfold askBranchFlow
  dsimp only
  rw [if_pos ⟨hm, hb⟩, if_pos hc]
  constructor
  · dsimp only
    induction s.branchChanged with
    | nil => simp [setKey, lookup?]
    | cons kv rest ih =>
      obtain ⟨k, v⟩ := kv
      by_cases hk : k = repo
      · subst hk
        simp [setKey, lookup?]
      · simp only [setKey, lookup?, if_neg hk]
        exact ih
  · rfl

/-- C1 witness. -/
theorem claim1_branch_record_overwrite_witness :
    lookup? (askBranchFlow "r" ⟨"existing", "dev", ""⟩ ⟨"main", ["main", "dev"]⟩
      emptySession).sess.branchChanged "r" = some ("main", "dev") :=
  (claim1_branch_record_overwrite "r" ⟨"existing", "dev", ""⟩ ⟨"main", ["main", "dev"]⟩
    emptySession rfl (by decide) (by decide)).1

theorem runRevertSteps_no_banner (raises : String → List String → Bool)
    (repo r : String) (steps : List (List String)) :
    REv.banner r ∉ runRevertSteps raises repo steps := by
  induction steps with
  | nil => simp [runRevertSteps]
  | cons a rest ih =>
    simp only [runRevertSteps, List.mem_cons]
    rintro (h | h)
    · exact REv.noConfusion h
    · split at h
      · simp at h
      · exact ih h

/-- C2 as stated is false: two staging attempts on the same repository
leave it twice in the touched ledger, and rollback then visits it twice,
not exactly once. -/
theorem claim2_counterexample :
    (add_and_commit gitOk (fun _ _ => true) "r" true none "m"
      (add_and_commit gitOk (fun _ _ => true) "r" true none "m"
        emptySession).sess).sess.touched = ["r", "r"] ∧
    (revertChanges
      (add_and_commit gitOk (fun _ _ => true) "r" true none "m"
        (add_and_commit gitOk (fun _ _ => true) "r" true none "m"
          emptySession).sess).sess.branchChanged noRaise
      (add_and_commit gitOk (fun _ _ => true) "r" true none "m"
        (add_and_commit gitOk (fun _ _ => true) "r" true none "m"
          emptySession).sess).sess.touched).count (REv.banner "r") = 2 ∧
    (2 : Nat) ≠ 1 := by
  refine ⟨by decide, by decide, by decide⟩

/-- C2 amended: the Rollback Manager iterates over the touched ledger in
the order staging attempts were recorded, visiting a repository once per
recorded attempt - its banner appears exactly as many times as the
repository occurs in the ledger; in particular each touched repository is
visited exactly once only when it had a single staging attempt. -/
theorem claim2_visits_per_attempt (bc : List (String × String × String))
    (raises : String → List String → Bool) (touched : List String)
    (r : String) :
    (revertChanges bc raises touched).count (REv.banner r) = touched.count r := by
  induction touched with
  | nil => rfl
  | cons repo rest ih =>
    have hz : (runRevertSteps raises repo (repoRevertSteps bc repo)).count
        (REv.banner r) = 0 :=
      List.count_eq_zero.2 (runRevertSteps_no_banner raises repo r _)
    simp only [revertChanges, List.count_append, List.count_cons, hz, ih,
      REv.banner.injEq]
    simp only [beq_iff_eq, REv.banner.injEq, Nat.zero_add]
    rcases eq_or_ne repo r with h | h <;> simp [h] <;> try omega

theorem runRevertSteps_noRaise (repo : String) (steps : List (List String)) :
    runRevertSteps noRaise repo steps = steps.map (REv.git repo) := by
  induction steps with
  | nil => rfl
  | cons a rest ih => simp [runRevertSteps, noRaise, ih]

theorem runRevertSteps_filterMap_banner (raises : String → List String → Bool)
    (repo : String) (steps : List (List String)) :
    (runRevertSteps raises repo steps).filterMap bannerName = [] := by
  induction steps with
  | nil => rfl
  | cons a rest ih =>
    simp only [runRevertSteps, List.filterMap_cons]
    split
    · split
      · rfl
      · exact ih
    · exact absurd (by assumption) (by simp [bannerName])

/-- C5: for every entry of the touched ledger, in ledger order, rollback
issues exactly these compensating git calls in this order - unstage
(`restore --staged .`), hard reset, clean untracked (`clean -fd`), and,
only when a branch change is recorded for that repository, checkout of
the recorded original branch (shown for the run where no call raises);
under any raise oracle every ledger entry is still visited (a failure in
one repository's steps is swallowed and the next repository processed);
and the SIGINT handler runs the rollback and then exits with code 130. -/
theorem claim5_rollback_steps (bc : List (String × String × String))
    (raises : String → List String → Bool) (touched : List String) :
    (revertChanges bc noRaise touched =
      touched.flatMap (fun repo =>
        [REv.banner repo, REv.git repo ["restore", "--staged", "."],
         REv.git repo ["reset", "--hard"], REv.git repo ["clean", "-fd"]] ++
        (match lookup? bc repo with
         | some ob => [REv.git repo ["checkout", ob.1]]
         | none => []))) ∧
    ((revertChanges bc raises touched).filterMap bannerName = touched) ∧
    (handleSigint touched bc raises = (revertChanges bc raises touched, 130)) := by
  refine ⟨?_, ?_, rfl⟩
  · induction touched with
    | nil => rfl
    | cons repo rest ih =>
      simp only [revertChanges, List.flatMap_cons, runRevertSteps_noRaise,
        repoRevertSteps, ih]
      cases hl : lookup? bc repo <;> simp [hl]
  · induction touched with
    | nil => rfl
    | cons repo rest ih =>
      simp only [revertChanges, List.filterMap_append, List.filterMap_cons,
        runRevertSteps_filterMap_banner, bannerName, ih]
      rfl

/-- C3 as stated is false: in the browser rooted at the example
filesystem, picking file `a.txt` (index 3) twice in a row does not return
the selection to its prior (empty) state - the second pick is a no-op
message, not a removal, so the file stays selected. -/
theorem claim3_counterexample :
    browseRun exFs [] ⟨[], []⟩ [⟨"3", true⟩, ⟨"3", true⟩] =
      Sum.inl ⟨[], [["a.txt"]]⟩ ∧
    ([["a.txt"]] : List (List String)) ≠ [] := by
  refine ⟨by decide, by decide⟩

/-- C3 amended: picking a file not in the selection appends it; picking a
file already in the selection leaves the whole browser state unchanged
(a no-op, not a removal), so the file pick is idempotent rather than an
involution - the only way to shrink the selection is the remove-last
command. -/
theorem claim3_select_idempotent (st : BState) (fp : List String) :
    selectFile (selectFile st fp) fp = selectFile st fp ∧
    (selectFile st fp).selected =
      (if fp ∈ st.selected then st.selected else st.selected ++ [fp]) ∧
    (selectFile st fp).cur = st.cur := by
  by_cases h : fp ∈ st.selected
  · simp [selectFile, h]
  · refine ⟨?_, ?_, ?_⟩
    · have h2 : fp ∈ (selectFile st fp).selected := by
        simp [selectFile, if_neg h]
      simp [selectFile, if_neg h, h2]
    · simp [selectFile, if_neg h]
    · simp [selectFile, if_neg h]

theorem dropLast_append_ne {α : Type} (a b : List α) (h : b ≠ []) :
    (a ++ b).dropLast = a ++ b.dropLast := by
  cases b with
  | nil => exact absurd rfl h
  | cons x xs => rw [List.dropLast_append_cons]

theorem mem_sortedEntries (fs : FS) (cur : List String) (e : FEntry)
    (h : e ∈ sortedEntries fs cur) : e ∈ fs cur :=
  (List.perm_insertionSort entryLe (fs cur)).mem_iff.1 h

theorem mem_items_up (fs : FS) (root cur : List String)
    (h : Item.up ∈ items fs root cur) : cur ≠ root := by
  intro hcr
  simp [items, hcr] at h

theorem mem_items_dir (fs : FS) (root cur : List String) (d : String)
    (h : Item.dirItem d ∈ items fs root cur) : FEntry.dir d ∈ fs cur := by
  simp only [items, List.mem_append] at h
  rcases h with ((h | h) | h) | h
  · split at h <;> simp at h
  · simp at h
  · rcases List.mem_map.1 h with ⟨n, hn, he⟩
    cases he
    rcases List.mem_filterMap.1 hn with ⟨e, he2, hee⟩
    cases e with
    | dir n2 =>
      simp only [Option.some.injEq] at hee
      subst hee
      exact mem_sortedEntries fs cur _ he2
    | file n2 => exact Option.noConfusion hee
  · rcases List.mem_map.1 h with ⟨n, _, he⟩
    exact Item.noConfusion he

theorem mem_items_file (fs : FS) (root cur : List String) (f : String)
    (h : Item.fileItem f ∈ items fs root cur) : FEntry.file f ∈ fs cur := by
  simp only [items, List.mem_append] at h
  rcases h with ((h | h) | h) | h
  · split at h <;> simp at h
  · simp at h
  · rcases List.mem_map.1 h with ⟨n, _, he⟩
    exact Item.noConfusion he
  · rcases List.mem_map.1 h with ⟨n, hn, he⟩
    cases he
    rcases List.mem_filterMap.1 hn with ⟨e, he2, hee⟩
    cases e with
    | dir n2 => exact Option.noConfusion hee
    | file n2 =>
      simp only [Option.some.injEq] at hee
      subst hee
      exact mem_sortedEntries fs cur _ he2

theorem bstep_inl_inv (fs : FS) (root : List String) (st st2 : BState)
    (inp : BInput) (hok : FSok fs) (hinv : InvSt root st)
    (h : bstep fs root st inp = Sum.inl st2) : InvSt root st2 := by
  unfold bstep at h
  split at h
  · cases h
    exact hinv
  · split at h
    · cases h
      exact hinv
    · split at h
      · cases h
        obtain ⟨hc, hsel, hnd⟩ := hinv
        refine ⟨hc, ?_, hnd.sublist (List.dropLast_sublist _)⟩
        intro p hp
        exact hsel p ((List.dropLast_sublist _).subset hp)
      · split at h
        · cases h
          exact hinv
        · split at h
          · cases h
            exact hinv
          · split at h
            · cases h
              exact hinv
            · -- the `..` control
              rename_i heq
              have hmem := List.get?_mem heq
              cases h
              obtain ⟨⟨t, hcur, hgt⟩, hsel, hnd⟩ := hinv
              have hne : st.cur ≠ root := mem_items_up fs root st.cur hmem
              have ht : t ≠ [] := by
                rintro rfl
                rw [List.append_nil] at hcur
                exact hne hcur
              refine ⟨⟨t.dropLast, ?_, ?_⟩, hsel, hnd⟩
              · dsimp only
                rw [hcur, dropLast_append_ne root t ht]
              · intro c hcm
                exact hgt c ((List.dropLast_sublist t).subset hcm)
            · -- the finish control, continuing to browse
              split at h
              · split at h
                · exact Sum.noConfusion h
                · cases h
                  exact hinv
              · split at h
                · exact Sum.noConfusion h
                · cases h
                  exact hinv
            · -- entering a subdirectory
              rename_i d heq
              have hmem := List.get?_mem heq
              cases h
              obtain ⟨⟨t, hcur, hgt⟩, hsel, hnd⟩ := hinv
              have hgd : goodName d :=
                hok st.cur _ (mem_items_dir fs root st.cur d hmem)
              refine ⟨⟨t ++ [d], ?_, ?_⟩, hsel, hnd⟩
              · dsimp only
                rw [hcur, List.append_assoc]
              · intro c hcm
                rcases List.mem_append.1 hcm with hc | hc
                · exact hgt c hc
                · rw [List.mem_singleton] at hc
                  subst hc
                  exact hgd
            · -- picking a file
              rename_i f heq
              have hmem := List.get?_mem heq
              cases h
              obtain ⟨⟨t, hcur, hgt⟩, hsel, hnd⟩ := hinv
              have hgf : goodName f :=
                hok st.cur _ (mem_items_file fs root st.cur f hmem)
              unfold selectFile
              split
              · exact ⟨⟨t, hcur, hgt⟩, hsel, hnd⟩
              · rename_i hfp
                refine ⟨⟨t, hcur, hgt⟩, ?_, ?_⟩
                · intro p hp
                  rcases List.mem_append.1 hp with hp2 | hp2
                  · exact hsel p hp2
                  · rw [List.mem_singleton] at hp2
                    subst hp2
                    refine ⟨t ++ [f], by simp, ?_, ?_⟩
                    · rw [hcur, List.append_assoc]
                    · intro c hcm
                      rcases List.mem_append.1 hcm with hc | hc
                      · exact hgt c hc
                      · rw [List.mem_singleton] at hc
                        subst hc
                        exact hgf
                · rw [List.nodup_append]
                  refine ⟨hnd, List.nodup_singleton _, ?_⟩
                  intro p hp hp2
                  rw [List.mem_singleton] at hp2
                  subst hp2
                  exact hfp hp

theorem bstep_inr_inv (fs : FS) (root : List String) (st : BState)
    (inp : BInput) (r : List (List String)) (hinv : InvSt root st)
    (h : bstep fs root st inp = Sum.inr r) :
    r.Nodup ∧ ∀ q ∈ r, q ≠ [] ∧ ∀ c ∈ q, goodName c := by
  unfold bstep at h
  split at h
  · exact Sum.noConfusion h
  · split at h
    · exact Sum.noConfusion h
    · split at h
      · exact Sum.noConfusion h
      · split at h
        · exact Sum.noConfusion h
        · split at h
          · exact Sum.noConfusion h
          · split at h
            · exact Sum.noConfusion h
            · exact Sum.noConfusion h
            · split at h
              · split at h
                · cases h
                  exact ⟨List.nodup_nil, by simp⟩
                · exact Sum.noConfusion h
              · split at h
                · cases h
                  obtain ⟨_, hsel, hnd⟩ := hinv
                  constructor
                  · refine List.Nodup.map_on ?_ hnd
                    intro x hx y hy hxy
                    obtain ⟨tx, _, hxe, _⟩ := hsel x hx
                    obtain ⟨ty, _, hye, _⟩ := hsel y hy
                    subst hxe
                    subst hye
                    rw [List.drop_left, List.drop_left] at hxy
                    rw [hxy]
                  · intro q hq
                    rcases List.mem_map.1 hq with ⟨p, hp, hpe⟩
                    obtain ⟨t, htne, hpe2, hgt⟩ := hsel p hp
                    subst hpe2
                    rw [List.drop_left] at hpe
                    subst hpe
                    exact ⟨htne, hgt⟩
                · exact Sum.noConfusion h
            · exact Sum.noConfusion h
            · exact Sum.noConfusion h

theorem browseRun_inv (fs : FS) (root : List String) (hok : FSok fs) :
    ∀ (inps : List BInput) (st : BState), InvSt root st →
    ∀ r, browseRun fs root st inps = Sum.inr r →
    r.Nodup ∧ ∀ q ∈ r, q ≠ [] ∧ ∀ c ∈ q, goodName c := by
  intro inps
  induction inps with
  | nil =>
    intro st _ r h
    exact Sum.noConfusion h
  | cons i rest ih =>
    intro st hinv r h
    rcases hb : bstep fs root st i with st2 | r2
    · simp only [browseRun, hb] at h
      exact ih st2 (bstep_inl_inv fs root st st2 i hok hinv hb) r h
    · simp only [browseRun, hb] at h
      cases h
      exact bstep_inr_inv fs root st i r hinv hb

theorem exFs_ok : FSok exFs := by
  intro p e h
  unfold exFs at h
  split at h
  · simp only [List.mem_cons, List.not_mem_nil, or_false] at h
    rcases h with rfl | rfl <;> exact ⟨by decide, by decide, by decide⟩
  · split at h
    · simp only [List.mem_singleton] at h
      subst h
      exact ⟨by decide, by decide, by decide⟩
    · simp at h

/-- C6: for any browser run from the repository root that ends in a
confirmed finish, the returned selection has no duplicate paths and every
returned path is a non-empty root-relative component list whose components
are real entry names (never empty, `.` or `..`, so the path cannot escape
the root); and spec Scenario C holds concretely: from the example root,
picking `a.txt`, descending into `sub/`, picking `b.txt` and finishing
returns exactly `["a.txt", "sub/b.txt"]`, in order of addition. -/
theorem claim6_browser_selection (fs : FS) (root : List String)
    (inps : List BInput) (r : List (List String)) (hok : FSok fs)
    (h : browseRun fs root ⟨root, []⟩ inps = Sum.inr r) :
    (r.Nodup ∧ ∀ q ∈ r, q ≠ [] ∧ ∀ c ∈ q, goodName c) ∧
    browseRun exFs [] ⟨[], []⟩
      [⟨"3", true⟩, ⟨"2", true⟩, ⟨"3", true⟩, ⟨"2", true⟩] =
      Sum.inr [["a.txt"], ["sub", "b.txt"]] := by
  refine ⟨browseRun_inv fs root hok inps ⟨root, []⟩ ?_ r h, by decide⟩
  exact ⟨⟨[], by simp, by simp⟩, by simp, List.nodup_nil⟩

/-- C6 witness. -/
theorem claim6_browser_selection_witness :
    ([["a.txt"], ["sub", "b.txt"]] : List (List String)).Nodup ∧
    ∀ q ∈ ([["a.txt"], ["sub", "b.txt"]] : List (List String)),
      q ≠ [] ∧ ∀ c ∈ q, goodName c :=
  (claim6_browser_selection exFs []
    [⟨"3", true⟩, ⟨"2", true⟩, ⟨"3", true⟩, ⟨"2", true⟩]
    [["a.txt"], ["sub", "b.txt"]] exFs_ok (by decide)).1
